import Mathlib

/-!
Verification of the symbol-extraction pass and file cache of a PHP
static-analysis indexer, by a shallow embedding of the TypeScript source
into Lean 4. Machine integers do not occur; all container state is made
explicit (the file system becomes an association list from path to
bucket, mutation becomes state passing, and JavaScript runtime errors
become `Except.error`).
-/

/- ## Basic data model (symbol.ts / reference.ts / parser enums) -/

/-- Token kinds of the PHP lexer that the transformers inspect. -/
inductive TokenType where
  | Name
  | VariableName
  | StringLiteral
  | IntegerLiteral
  | FloatingLiteral
  | Ampersand
  | Ellipsis
  | Static
  | Callable
  | Array
  | Function
  | Const
  | Abstract
  | Final
  | Public
  | Protected
  | Private
  | DocumentComment
  | CloseBrace
deriving DecidableEq, Repr

/-- Phrase kinds of the PHP parser that the transformers inspect. -/
inductive PhraseType where
  | ArgumentExpressionList
  | FunctionCallExpression
  | MemberName
  | ScopedMemberName
  | NamespaceName
  | QualifiedName
  | RelativeQualifiedName
  | FullyQualifiedName
  | SimpleVariable
  | Identifier
  | TypeDeclaration
  | MemberModifierList
  | ParameterDeclaration
deriving DecidableEq, Repr

/-- Bit-flag values of the `SymbolKind` const enum. -/
def SymbolKind.None : Nat := 0
def SymbolKind.File : Nat := 1
def SymbolKind.Class : Nat := 2
def SymbolKind.Interface : Nat := 4
def SymbolKind.Trait : Nat := 8
def SymbolKind.Constant : Nat := 16
def SymbolKind.Property : Nat := 32
def SymbolKind.Method : Nat := 64
def SymbolKind.Variable : Nat := 128
def SymbolKind.Parameter : Nat := 256
def SymbolKind.Function : Nat := 512
def SymbolKind.Namespace : Nat := 1024
def SymbolKind.ClassConstant : Nat := 2048

/-- Bit-flag values of the `SymbolModifier` const enum. -/
def SymbolModifier.None : Nat := 0
def SymbolModifier.Public : Nat := 1
def SymbolModifier.Protected : Nat := 2
def SymbolModifier.Private : Nat := 4
def SymbolModifier.Final : Nat := 8
def SymbolModifier.Abstract : Nat := 16
def SymbolModifier.Static : Nat := 32
def SymbolModifier.ReadOnly : Nat := 64
def SymbolModifier.WriteOnly : Nat := 128
def SymbolModifier.Magic : Nat := 256
def SymbolModifier.Anonymous : Nat := 512
def SymbolModifier.Reference : Nat := 1024
def SymbolModifier.Variadic : Nat := 2048
def SymbolModifier.Use : Nat := 4096

/-- Packed document range (start offset, end offset). -/
abbrev PackedRange := Nat × Nat

/-- Packed document location; the URI is kept with the range. -/
structure PackedLocation where
  uri : String
  range : PackedRange
deriving DecidableEq, Repr

/-- Documentation derived from a PHPDoc comment (`PhpSymbolDoc`). -/
structure PhpSymbolDoc where
  description : Option String := none
  type : Option String := none
deriving DecidableEq, Repr

def PhpSymbolDoc.create (description : Option String) (type : Option String) :
    PhpSymbolDoc :=
  { description := description, type := type }

/-- A reference to a symbol (`Reference` of reference.ts). The optional
fields are absent (`none`) until the pass assigns them. -/
structure Reference where
  kind : Nat
  name : String
  range : PackedRange
  unresolvedName : Option String := none
  type : Option String := none
deriving DecidableEq, Repr

/-- Modelled from the spec: `Reference.create` of reference.ts is not under
src/; per the data model (§3) a fresh reference has only kind, name and
range, with *unresolvedName* "populated only when resolution rewrote the
name" and *type* optional, so both start unset. -/
def Reference.create (kind : Nat) (name : String) (range : PackedRange) :
    Reference :=
  { kind := kind, name := name, range := range }

/-- A symbol (`PhpSymbol` of symbol.ts); optional fields start unset. -/
structure PhpSymbol where
  kind : Nat
  name : String
  location : PackedLocation
  modifiers : Nat := 0
  value : Option String := none
  type : Option String := none
  scope : Option String := none
  doc : Option PhpSymbolDoc := none
  children : Option (List PhpSymbol)

/-- Modelled from the spec: `PhpSymbol.create` of symbol.ts is not under
src/; it fills kind, name and location and leaves the rest unset. -/
def PhpSymbol.create (kind : Nat) (name : String) (location : PackedLocation) :
    PhpSymbol :=
  { kind := kind, name := name, location := location, children := none }

/- ## File cache (src/cache.ts) -/

/-- A bucket file's contents: a list of `[key, value]` items. -/
abbrev Bucket (α : Type) := List (String × α)

/-- The file system visible to the cache: an association list from file
path to the bucket stored there; a missing path reads as `none` (ENOENT). -/
abbrev CacheFs (α : Type) := List (String × Bucket α)

/-- `bucketFind` of cache.ts: first item whose key equals `key`. -/
def bucketFind {α : Type} (bucket : Bucket α) (key : String) :
    Option (String × α) :=
  bucket.find? (fun i => decide (i.1 = key))

/-- `bucketRemove` of cache.ts: keep the items whose key differs. -/
def bucketRemove {α : Type} (bucket : Bucket α) (key : String) : Bucket α :=
  bucket.filter (fun b => !(decide (b.1 = key)))

/-- `readFile` of cache.ts: the bucket stored at `filePath`, or `none`
when the file does not exist. -/
def cacheReadFile {α : Type} (fs : CacheFs α) (filePath : String) :
    Option (Bucket α) :=
  (fs.find? (fun e => decide (e.1 = filePath))).map (fun e => e.2)

/-- `writeFile` of cache.ts: replace the contents stored at `filePath`. -/
def cacheWriteFile {α : Type} (fs : CacheFs α) (filePath : String)
    (bucket : Bucket α) : CacheFs α :=
  (filePath, bucket) :: fs.filter (fun e => !(decide (e.1 = filePath)))

/-- `deleteFile` of cache.ts: unlink `filePath` (ENOENT is not an error). -/
def cacheDeleteFile {α : Type} (fs : CacheFs α) (filePath : String) :
    CacheFs α :=
  fs.filter (fun e => !(decide (e.1 = filePath)))

/-- The persistent fields of `FileCache`: its directory and the hash used
by `_filePath`. `Math.abs(util.hash32(key)).toString(16)` lives outside
src/, so the hash is carried as an explicit function. -/
structure FileCache where
  path : String
  hash : String → String

/-- `FileCache._filePath`: `path.join(this.path, hash(key))`. -/
def FileCache.filePath (c : FileCache) (key : String) : String :=
  c.path ++ "/" ++ c.hash key

/-- `FileCache.read`: read the bucket at the key's path and scan it. -/
def FileCache.read {α : Type} (c : FileCache) (fs : CacheFs α)
    (key : String) : Option α :=
  match cacheReadFile fs (c.filePath key) with
  | none => none
  | some b =>
    match bucketFind b key with
    | some item => some item.2
    | none => none

/-- `FileCache.write`: remove any item under the key from the bucket,
append the new item, and store the bucket back. -/
def FileCache.write {α : Type} (c : FileCache) (fs : CacheFs α)
    (key : String) (data : α) : CacheFs α :=
  let filePath := c.filePath key
  match cacheReadFile fs filePath with
  | some b => cacheWriteFile fs filePath (bucketRemove b key ++ [(key, data)])
  | none => cacheWriteFile fs filePath [(key, data)]

/-- `FileCache.delete`: rewrite the bucket without the key when the key is
found and other items remain; otherwise, when the file exists, unlink it. -/
def FileCache.delete {α : Type} (c : FileCache) (fs : CacheFs α)
    (key : String) : CacheFs α :=
  let filePath := c.filePath key
  match cacheReadFile fs filePath with
  | some b =>
    if (bucketFind b key).isSome ∧ b.length > 1 then
      cacheWriteFile fs filePath (bucketRemove b key)
    else
      cacheDeleteFile fs filePath
  | none => fs

/-- Concrete cache with a constant hash, so that distinct keys collide. -/
def collidingCache : FileCache := ⟨"cache", fun _ => "b"⟩

/-- Concrete file system: the single bucket file holds one item under the
key `"j"`; the key `"k"` is absent but hashes to the same bucket. -/
def fsWithJ : CacheFs Nat := [("cache/b", [("j", 1)])]

/-- Concrete cache used for the witness of the amended delete claim. -/
def deleteWitnessCache : FileCache := ⟨"cache", fun _ => "h"⟩

/-- Concrete file system whose single bucket holds the key `"k"` next to
a colliding sibling `"j"`. -/
def deleteWitnessFs : CacheFs Nat := [("cache/h", [("k", 5), ("j", 7)])]

/- ## Unique symbol collection (symbolsPass.ts) -/

/-- `UniqueSymbolCollection._inbuilt`: the PHP superglobal names (plus
`$this`) that are pre-marked in the variable map. -/
def inbuiltVarNames : List String :=
  ["$GLOBALS", "$_SERVER", "$_GET", "$_POST", "$_FILES", "$_REQUEST",
   "$_SESSION", "$_ENV", "$_COOKIE", "$php_errormsg", "$HTTP_RAW_POST_DATA",
   "$http_response_header", "$argc", "$argv", "$this"]

/-- The kind test `s.kind & (SymbolKind.Parameter | SymbolKind.Variable)`. -/
def isVarOrParam (s : PhpSymbol) : Bool :=
  decide (s.kind &&& (SymbolKind.Parameter ||| SymbolKind.Variable) ≠ 0)

/-- State of a `UniqueSymbolCollection`: the emitted symbols and the names
with a defined entry in `_varMap`. -/
structure UniqueSymbolCollection where
  symbols : List PhpSymbol
  varMap : List String

/-- The constructor: no symbols, `_varMap` seeded with the inbuilt names. -/
def UniqueSymbolCollection.init : UniqueSymbolCollection :=
  ⟨[], inbuiltVarNames⟩

/-- `UniqueSymbolCollection.push`: a Variable/Parameter symbol is appended
only when its name has no `_varMap` entry yet (which then gets one); any
other symbol is appended unconditionally. -/
def UniqueSymbolCollection.push (c : UniqueSymbolCollection)
    (s : PhpSymbol) : UniqueSymbolCollection :=
  if isVarOrParam s then
    if s.name ∈ c.varMap then c
    else ⟨c.symbols ++ [s], s.name :: c.varMap⟩
  else ⟨c.symbols ++ [s], c.varMap⟩

/-- `UniqueSymbolCollection.pushMany`. -/
def UniqueSymbolCollection.pushMany (c : UniqueSymbolCollection)
    (l : List PhpSymbol) : UniqueSymbolCollection :=
  l.foldl UniqueSymbolCollection.push c

/-- `UniqueSymbolCollection.toArray`. -/
def UniqueSymbolCollection.toArray (c : UniqueSymbolCollection) :
    List PhpSymbol :=
  c.symbols

/-- The symbols a push sequence `l` adds when the variable map starts as
`m` (specification function used to reason about `pushMany`). -/
def addedSyms : List String → List PhpSymbol → List PhpSymbol
  | _, [] => []
  | m, s :: rest =>
    if isVarOrParam s then
      if s.name ∈ m then addedSyms m rest
      else s :: addedSyms (s.name :: m) rest
    else s :: addedSyms m rest

/-- A location for the concrete example symbols. -/
def loc0 : PackedLocation := ⟨"file:///t.php", (0, 0)⟩

/-- A Constant symbol named `$this` (producible via `define('$this', 1)`);
its kind is not Variable or Parameter, so the collection keeps it. -/
def constThisSymbol : PhpSymbol :=
  PhpSymbol.create SymbolKind.Constant "$this" loc0

/-- Concrete Variable symbol `$a`. -/
def varA1 : PhpSymbol := PhpSymbol.create SymbolKind.Variable "$a" loc0

/-- A second Variable symbol named `$a` at another location. -/
def varA2 : PhpSymbol :=
  PhpSymbol.create SymbolKind.Variable "$a" ⟨"file:///t.php", (5, 7)⟩

/-- Concrete Class symbol. -/
def classC : PhpSymbol := PhpSymbol.create SymbolKind.Class "C" loc0

/- ## Name transformers (symbolsPass.ts) -/

/-- The `RESERVED_WORDS` table of symbolsPass.ts. -/
def RESERVED_WORDS : List String :=
  ["int", "string", "bool", "float", "iterable", "true", "false", "null",
   "void", "object"]

/-- JavaScript `String.prototype.toLowerCase` (character-wise). -/
def jsToLowerCase (s : String) : String :=
  String.mk (s.data.map Char.toLower)

/-- State of a `NamespaceNameTransformer`: the accumulated text and the
reference it created on construction (kind Class, empty name). -/
structure NamespaceNameState where
  text : String
  ref : Reference

/-- The `NamespaceNameTransformer` constructor. -/
def namespaceNameInit (range : PackedRange) : NamespaceNameState :=
  { text := "", ref := Reference.create SymbolKind.Class "" range }

/-- `NamespaceNameTransformer.push`: join Name tokens with a namespace
separator and mirror the text into the reference's name. -/
def namespaceNamePush (st : NamespaceNameState) (tok : TokenType)
    (text : String) : NamespaceNameState :=
  if tok = TokenType.Name then
    let t := if st.text ≠ "" then st.text ++ "\\" ++ text else text
    { text := t, ref := { st.ref with name := t } }
  else st

/-- `QualifiedNameTransformer.push` acting on its NamespaceName child:
adopt the child's reference, set the contextual kind, return reserved
words unchanged; otherwise resolve the written name and, when the kind is
Function or Constant and resolution rewrote the name, keep the written
form in `unresolvedName`. `NameResolver.resolveNotFullyQualified` lives
in nameResolver.ts outside src/, so it is passed as a function. -/
def qualifiedNamePush (resolve : String → Nat → String) (kind : Nat)
    (childPhrase : PhraseType) (nn : NamespaceNameState) : Option Reference :=
  if childPhrase = PhraseType.NamespaceName then
    if jsToLowerCase nn.ref.name ∈ RESERVED_WORDS then
      some { nn.ref with kind := kind }
    else if (kind = SymbolKind.Function ∨ kind = SymbolKind.Constant)
        ∧ resolve nn.ref.name kind ≠ nn.ref.name then
      some { nn.ref with
        kind := kind,
        name := resolve nn.ref.name kind,
        unresolvedName := some nn.ref.name }
    else
      some { nn.ref with kind := kind, name := resolve nn.ref.name kind }
  else none

/-- `MemberAccessExpressionTransform.push`: on a (Scoped)MemberName child
stamp the transform's symbol kind onto the child's reference; for a
Property kind whose name is non-empty and does not start with `$`,
prepend `$`. -/
def memberAccessPush (symbolKind : Nat) (childPhrase : PhraseType)
    (r : Reference) : Reference :=
  if childPhrase = PhraseType.ScopedMemberName
      ∨ childPhrase = PhraseType.MemberName then
    if symbolKind = SymbolKind.Property ∧ r.name ≠ ""
        ∧ r.name.data.head? ≠ some '$' then
      { r with kind := symbolKind, name := "$" ++ r.name }
    else { r with kind := symbolKind }
  else r

/-- Concrete NamespaceName state carrying the reserved word `Int`. -/
def reservedNN : NamespaceNameState :=
  ⟨"Int", Reference.create SymbolKind.Class "Int" (3, 6)⟩

/-- Concrete NamespaceName state carrying the unqualified name `foo`. -/
def qnFooNN : NamespaceNameState :=
  ⟨"foo", Reference.create SymbolKind.Class "foo" (0, 3)⟩

/-- Concrete member-name reference as `MemberNameTransform` leaves it. -/
def propMemberRef : Reference := Reference.create SymbolKind.None "prop" (4, 8)

/- ## PHPDoc magic members (symbolsPass.ts, SymbolReader) -/

/-- A `@method` tag parameter as phpDoc.ts reports it. -/
structure MethodTagParam where
  name : String
  typeString : String
deriving DecidableEq, Repr

/-- A PHPDoc tag as phpDoc.ts reports it. -/
structure Tag where
  tagName : String
  name : String
  description : String
  typeString : String
  isStatic : Bool
  parameters : Option (List MethodTagParam)
deriving DecidableEq, Repr

/-- The slice of a parsed PHPDoc the symbol reader consumes. -/
structure PhpDoc where
  text : String
  propertyTags : List Tag
  methodTags : List Tag
deriving DecidableEq, Repr

/-- `SymbolReader.tokenTypeToPhpType`. -/
def SymbolReader.tokenTypeToPhpType (tokenType : TokenType) : String :=
  match tokenType with
  | TokenType.StringLiteral => "string"
  | TokenType.IntegerLiteral => "int"
  | TokenType.FloatingLiteral => "float"
  | _ => ""

/-- `SymbolReader.magicPropertyModifier`. -/
def SymbolReader.magicPropertyModifier (t : Tag) : Nat :=
  if t.tagName = "@property-read" then SymbolModifier.ReadOnly
  else if t.tagName = "@property-write" then SymbolModifier.WriteOnly
  else SymbolModifier.None

/-- `SymbolReader.propertyTagToSymbol`; `TypeString.nameResolve` lives in
typeString.ts outside src/ and is passed as `tsResolve`. -/
def SymbolReader.propertyTagToSymbol (tsResolve : String → String) (t : Tag)
    (phpDocLoc : PackedLocation) : PhpSymbol :=
  { PhpSymbol.create SymbolKind.Property t.name phpDocLoc with
    modifiers := SymbolReader.magicPropertyModifier t
      ||| SymbolModifier.Magic ||| SymbolModifier.Public,
    doc := some (PhpSymbolDoc.create (some t.description)
      (some (tsResolve t.typeString))) }

/-- `SymbolReader.magicMethodParameterToSymbol`. -/
def SymbolReader.magicMethodParameterToSymbol (tsResolve : String → String)
    (p : MethodTagParam) (phpDocLoc : PackedLocation) : PhpSymbol :=
  { PhpSymbol.create SymbolKind.Parameter p.name phpDocLoc with
    modifiers := SymbolModifier.Magic,
    doc := some (PhpSymbolDoc.create none (some (tsResolve p.typeString))) }

/-- `SymbolReader.methodTagToSymbol`. -/
def SymbolReader.methodTagToSymbol (tsResolve : String → String) (tag : Tag)
    (phpDocLoc : PackedLocation) : PhpSymbol :=
  { PhpSymbol.create SymbolKind.Method tag.name phpDocLoc with
    modifiers :=
      if tag.isStatic then
        SymbolModifier.Magic ||| SymbolModifier.Public
          ||| SymbolModifier.Static
      else SymbolModifier.Magic ||| SymbolModifier.Public,
    doc := some (PhpSymbolDoc.create (some tag.description)
      (some (tsResolve tag.typeString))),
    children := some
      (match tag.parameters with
       | none => []
       | some ps => ps.map
          (fun p => SymbolReader.magicMethodParameterToSymbol
            tsResolve p phpDocLoc)) }

/-- `SymbolReader.phpDocMembers`: the property-tag symbols followed by
the method-tag symbols. -/
def SymbolReader.phpDocMembers (tsResolve : String → String) (phpDoc : PhpDoc)
    (phpDocLoc : PackedLocation) : List PhpSymbol :=
  phpDoc.propertyTags.map
      (fun t => SymbolReader.propertyTagToSymbol tsResolve t phpDocLoc)
    ++ phpDoc.methodTags.map
      (fun t => SymbolReader.methodTagToSymbol tsResolve t phpDocLoc)

/-- Concrete `@property-read` tag. -/
def propertyReadTag : Tag := ⟨"@property-read", "$x", "", "int", false, none⟩

/-- Concrete static `@method` tag. -/
def staticMethodTag : Tag := ⟨"@method", "make", "", "static", true, some []⟩

/- ## define() transform (symbolsPass.ts) -/

/-- A finished child transform of the argument list as the define
transform sees it: a `TokenTransform` (with `tokenType`) or a
`DefaultNodeTransformer` (without). -/
structure TextChildTransform where
  tokenType : Option TokenType
  text : String
  range : PackedRange
deriving DecidableEq, Repr

/-- Result fields of a `DefineFunctionCallExpressionTransform`. -/
structure DefineTransformState where
  symbol : Option PhpSymbol
  reference : Option Reference

/-- JavaScript `text.slice(1, -1)`. -/
def jsSliceQuotes (s : String) : String :=
  String.mk ((s.data.drop 1).dropLast)

/-- `DefineFunctionCallExpressionTransform.push` on the argument list:
a quoted first argument yields the Constant symbol and reference (leading
backslash stripped); a scalar-literal second argument is then stored into
`this.symbol.value` / `.type` — a field write that throws a TypeError
when no symbol was created. -/
def definePush (loc : PackedLocation) (childPhrase : PhraseType)
    (transforms : List TextChildTransform) :
    Except String DefineTransformState :=
  if childPhrase = PhraseType.ArgumentExpressionList then
    let arg1 := transforms.get? 0
    let arg2 := transforms.get? 1
    let st : DefineTransformState :=
      match arg1 with
      | some a1 =>
        if a1.tokenType = some TokenType.StringLiteral then
          let constName := jsSliceQuotes a1.text
          let constName :=
            if constName ≠ "" ∧ constName.data.head? = some '\\' then
              String.mk (constName.data.drop 1)
            else constName
          ⟨some (PhpSymbol.create SymbolKind.Constant constName loc),
           some (Reference.create SymbolKind.Constant constName a1.range)⟩
        else ⟨none, none⟩
      | none => ⟨none, none⟩
    match arg2 with
    | some a2 =>
      match a2.tokenType with
      | some tt =>
        if tt = TokenType.FloatingLiteral ∨ tt = TokenType.IntegerLiteral
            ∨ tt = TokenType.StringLiteral then
          match st.symbol with
          | none =>
            Except.error "TypeError: Cannot set property value of undefined"
          | some s =>
            Except.ok ⟨some { s with
              value := some a2.text,
              type := some (SymbolReader.tokenTypeToPhpType tt) },
              st.reference⟩
        else Except.ok st
      | none => Except.ok st
    | none => Except.ok st
  else Except.ok ⟨none, none⟩

/-- Location of the whole `define(...)` call expression. -/
def defineLoc : PackedLocation := ⟨"file:///t.php", (0, 30)⟩

/-- First argument that is a constant access, not a string literal
(`define(CONST1, 42)`). -/
def defineArgBad : TextChildTransform := ⟨none, "CONST1", (7, 13)⟩

/-- Second argument `42`, an integer literal. -/
def defineArgInt : TextChildTransform :=
  ⟨some TokenType.IntegerLiteral, "42", (15, 17)⟩

/-- Well-formed first argument, a quoted string literal. -/
def defineArgStr : TextChildTransform :=
  ⟨some TokenType.StringLiteral, "\"MY_CONST\"", (7, 17)⟩

/- ## Reference collection of the pass (symbolsPass.ts) -/

/-- The reference-collection fields of `SymbolsPass`: the declared
`references` array and the `referenceNameSet` used by `addRefName`, which
no code path ever initialises (it is `none` = undefined). -/
structure SymbolsPassRefState where
  references : List Reference
  referenceNameSet : Option (List String)

/-- The `SymbolsPass` constructor: `this.references = []`;
`referenceNameSet` is declared nowhere, hence undefined. -/
def symbolsPassInit : SymbolsPassRefState := ⟨[], none⟩

/-- `Set.prototype.add` on a possibly-undefined receiver. -/
def nameSetAdd : Option (List String) → String → Except String (List String)
  | none, _ => Except.error "TypeError: Cannot read property add of undefined"
  | some s, n => Except.ok (if n ∈ s then s else n :: s)

/-- `SymbolsPass.addRefName`: for a non-null reference, add its truthy
name and truthy unresolvedName to `this.referenceNameSet`; the
`references` array is not touched. -/
def addRefName (st : SymbolsPassRefState) (ref : Option Reference) :
    Except String SymbolsPassRefState :=
  match ref with
  | none => Except.ok st
  | some r =>
    (if r.name ≠ "" then
      (nameSetAdd st.referenceNameSet r.name).map
        (fun s => { st with referenceNameSet := some s })
    else Except.ok st).bind
      (fun st1 =>
        match r.unresolvedName with
        | some u =>
          if u ≠ "" then
            (nameSetAdd st1.referenceNameSet u).map
              (fun s => { st1 with referenceNameSet := some s })
          else Except.ok st1
        | none => Except.ok st1)

/-- A resolved variable reference, as `SimpleVariableTransform` emits. -/
def refDollarX : Reference := Reference.create SymbolKind.Variable "$x" (0, 2)

/- ## Suffix keys (symbol.ts, PhpSymbol.keys) -/

/-- Modelled from the spec: the key boundaries of `PhpSymbol.keys`
(symbol.ts is not under src/, only its tests are). A suffix starts after
a namespace separator, an underscore or a `$` sigil, or at an uppercase
letter that follows a lowercase letter (camelCase); this is the boundary
set §4.6's examples and the four in-repo test vectors use. `a` is the
character before the candidate start, `b` the character at it. -/
def keyBoundary (a b : Char) : Bool :=
  a = '\\' || a = '_' || a = '$' || (b.isUpper && a.isLower)

/-- All suffixes of the remainder that start at a boundary; `prev` is the
character just before the remainder. -/
def suffixesFrom (prev : Char) : List Char → List (List Char)
  | [] => []
  | c :: rest =>
    if keyBoundary prev c then (c :: rest) :: suffixesFrom c rest
    else suffixesFrom c rest

/-- The whole name followed by its boundary suffixes. -/
def keyList : List Char → List (List Char)
  | [] => []
  | c :: rest => (c :: rest) :: suffixesFrom c rest

/-- Lowercase a character run into a string. -/
def lowerKey (cs : List Char) : String :=
  String.mk (cs.map Char.toLower)

/-- Modelled from the spec: `PhpSymbol.keys` (§4.6) — every suffix of the
name from each boundary, lowercased, most complete first. Validated
against the four test vectors in the repository's PhpSymbol tests. -/
def PhpSymbol.keys (s : PhpSymbol) : List String :=
  (keyList s.name.data).map lowerKey

/-- The first boundary suffix of the remainder, if any. -/
def firstBoundarySuffix (prev : Char) : List Char → Option (List Char)
  | [] => none
  | c :: rest =>
    if keyBoundary prev c then some (c :: rest)
    else firstBoundarySuffix c rest

/-- `q` is the suffix of `p` that starts at `p`'s next boundary. -/
def nextKeyB (p q : List Char) : Bool :=
  match p with
  | [] => false
  | c :: cs => decide (firstBoundarySuffix c cs = some q)

/-- `q` contains no further boundary (it is the final word). -/
def noMoreBoundary (q : List Char) : Bool :=
  match q with
  | [] => true
  | c :: cs => (firstBoundarySuffix c cs).isNone

/-- A list is chained by the boolean relation `R` between neighbours. -/
def chainB {α : Type} (R : α → α → Bool) : List α → Bool
  | [] => true
  | [_] => true
  | a :: b :: t => R a b && chainB R (b :: t)

/-- The claim's boundary set: namespace separator or underscore only. -/
def sepFirstSuffix (prev : Char) : List Char → Option (List Char)
  | [] => none
  | c :: rest =>
    if prev = '\\' || prev = '_' then some (c :: rest)
    else sepFirstSuffix c rest

/-- `q` is the suffix of `p` at `p`'s next separator/underscore boundary
(the relation the claim asserts between consecutive keys). -/
def sepNextKeyB (p q : List Char) : Bool :=
  match p with
  | [] => false
  | c :: cs => decide (sepFirstSuffix c cs = some q)

/-- Test symbol `Foo\MyFooClass` from the repository's PhpSymbol tests. -/
def testMfcSymbol : PhpSymbol :=
  PhpSymbol.create SymbolKind.Class "Foo\\MyFooClass" loc0

/-- Test symbol `_my_function`. -/
def testFnSymbol : PhpSymbol :=
  PhpSymbol.create SymbolKind.Function "_my_function" loc0

/-- Test symbol `$myProperty`. -/
def testVarSymbol : PhpSymbol :=
  PhpSymbol.create SymbolKind.Variable "$myProperty" loc0

/-- Test symbol `THIS_IS_A_CONSTANT`. -/
def testConstSymbol : PhpSymbol :=
  PhpSymbol.create SymbolKind.Variable "THIS_IS_A_CONSTANT" loc0

/- ### helper lemmas on association lists -/

theorem find?_filter_of_imp {β : Type} (l : List β) (p q : β → Bool)
    (h : ∀ x, q x = true → p x = true) :
    (l.filter p).find? q = l.find? q := by
  induction l with
  | nil => rfl
  | cons x xs ih =>
    cases hqx : q x with
    | true =>
      rw [List.filter_cons_of_pos (h x hqx),
        List.find?_cons_of_pos _ hqx, List.find?_cons_of_pos _ hqx]
    | false =>
      have hq' : ¬ q x = true := by simp [hqx]
      cases hpx : p x with
      | true =>
        rw [List.filter_cons_of_pos hpx,
          List.find?_cons_of_neg _ hq', List.find?_cons_of_neg _ hq', ih]
      | false =>
        rw [List.filter_cons_of_neg (by simp [hpx]),
          List.find?_cons_of_neg _ hq', ih]

theorem find?_append_of_none {β : Type} (l₁ l₂ : List β) (q : β → Bool)
    (h : l₁.find? q = none) :
    (l₁ ++ l₂).find? q = l₂.find? q := by
  induction l₁ with
  | nil => rfl
  | cons x xs ih =>
    cases hqx : q x with
    | true =>
      rw [List.find?_cons_of_pos _ hqx] at h
      exact absurd h (by simp)
    | false =>
      have hq' : ¬ q x = true := by simp [hqx]
      rw [List.find?_cons_of_neg _ hq'] at h
      rw [List.cons_append, List.find?_cons_of_neg _ hq']
      exact ih h

theorem bucketFind_bucketRemove {α : Type} (b : Bucket α) (j k : String)
    (h : j ≠ k) : bucketFind (bucketRemove b k) j = bucketFind b j := by
  apply find?_filter_of_imp
  intro x hx
  have hx' : x.1 = j := of_decide_eq_true hx
  simp [hx', h]

theorem cacheReadFile_writeFile_self {α : Type} (fs : CacheFs α)
    (p : String) (b : Bucket α) :
    cacheReadFile (cacheWriteFile fs p b) p = some b := by
  simp [cacheReadFile, cacheWriteFile, List.find?]

theorem cacheReadFile_writeFile_other {α : Type} (fs : CacheFs α)
    (p q : String) (b : Bucket α) (h : q ≠ p) :
    cacheReadFile (cacheWriteFile fs p b) q = cacheReadFile fs q := by
  unfold cacheReadFile cacheWriteFile
  rw [List.find?_cons_of_neg _ (by simp [Ne.symm h])]
  rw [find?_filter_of_imp]
  intro x hx
  have hx' : x.1 = q := of_decide_eq_true hx
  simp [hx', h]

theorem cacheReadFile_deleteFile_other {α : Type} (fs : CacheFs α)
    (p q : String) (h : q ≠ p) :
    cacheReadFile (cacheDeleteFile fs p) q = cacheReadFile fs q := by
  unfold cacheReadFile cacheDeleteFile
  rw [find?_filter_of_imp]
  intro x hx
  have hx' : x.1 = q := of_decide_eq_true hx
  simp [hx', h]

/-- Claim C4: for every key and datum, `write(k, d)` followed by `read(k)`
yields `d`, for every prior file-system state, so colliding keys stored in
the same bucket file do not shadow one another: `read` finds the item for
exactly its key by a linear scan of the bucket. -/
theorem cache_write_then_read {α : Type} (c : FileCache) (fs : CacheFs α)
    (k : String) (d : α) :
    FileCache.read c (FileCache.write c fs k d) k = some d := by
  unfold FileCache.read FileCache.write
  cases hb : cacheReadFile fs (c.filePath k) with
  | some b =>
    have hfind : bucketFind (bucketRemove b k ++ [(k, d)]) k
        = bucketFind [(k, d)] k := by
      apply find?_append_of_none
      unfold bucketRemove
      cases hf : List.find? (fun i => decide (i.1 = k))
          (List.filter (fun b => !decide (b.1 = k)) b) with
      | none => rfl
      | some it =>
        have hmem := List.mem_of_find?_eq_some hf
        have hsat := List.find?_some hf
        have h1 : it.1 = k := of_decide_eq_true hsat
        have h2 := List.of_mem_filter hmem
        simp [h1] at h2
    simp only [hb, cacheReadFile_writeFile_self, hfind]
    simp [bucketFind, List.find?]
  | none =>
    simp only [hb, cacheReadFile_writeFile_self]
    simp [bucketFind, List.find?]

/-- Claim C3 (counterexample): `delete("k")` on a bucket that does not
contain `"k"` but holds a colliding entry `("j", 1)` unlinks the whole
bucket file, so the entry under `"j"` is lost, refuting the claim that
entries under other keys always survive `delete(k)`. -/
theorem cache_delete_absent_key_loses_entry :
    FileCache.read collidingCache fsWithJ "j" = some 1
    ∧ FileCache.delete collidingCache fsWithJ "k" = []
    ∧ FileCache.read collidingCache
        (FileCache.delete collidingCache fsWithJ "k") "j" = none := by
  decide

/-- Claim C3 (amended): `delete(k)` affects only the entry with key k
provided k is present in its bucket (or the bucket file does not exist):
every entry whose key differs from k is still returned by `read` after
`delete(k)`. (When the bucket file exists but does not contain k, the
code unlinks the whole file instead.) -/
theorem cache_delete_preserves_siblings_of_present_key {α : Type}
    (c : FileCache) (fs : CacheFs α) (k j : String) (v : α)
    (hjk : j ≠ k)
    (hk : ∀ b, cacheReadFile fs (c.filePath k) = some b →
      (bucketFind b k).isSome = true)
    (hv : FileCache.read c fs j = some v) :
    FileCache.read c (FileCache.delete c fs k) j = some v := by
  unfold FileCache.delete
  cases hb : cacheReadFile fs (c.filePath k) with
  | none =>
    simp only [hb]
    exact hv
  | some b =>
    have hks := hk b hb
    by_cases hcond : (bucketFind b k).isSome ∧ b.length > 1
    · simp only [hb, if_pos hcond]
      by_cases hpp : c.filePath j = c.filePath k
      · unfold FileCache.read at hv ⊢
        rw [hpp] at hv ⊢
        simp only [hb] at hv
        simp only [cacheReadFile_writeFile_self,
          bucketFind_bucketRemove b j k hjk]
        exact hv
      · unfold FileCache.read at hv ⊢
        rw [cacheReadFile_writeFile_other _ _ _ _ hpp]
        exact hv
    · simp only [hb, if_neg hcond]
      by_cases hpp : c.filePath j = c.filePath k
      · exfalso
        have hb1 : b.length ≤ 1 := by
          by_contra hgt
          exact hcond ⟨hks, by omega⟩
        obtain ⟨p, hp⟩ := Option.isSome_iff_exists.mp hks
        have hp' : List.find? (fun i => decide (i.1 = k)) b = some p := hp
        have hmem := List.mem_of_find?_eq_some hp'
        have hsat := @List.find?_some _ (fun i => decide (i.1 = k)) p b hp'
        have hpk : p.1 = k := of_decide_eq_true hsat
        have hbp : b = [p] := by
          cases b with
          | nil => cases hmem
          | cons x xs =>
            cases xs with
            | nil =>
              cases hmem with
              | head => rfl
              | tail _ hm => cases hm
            | cons y ys => simp at hb1
        subst hbp
        unfold FileCache.read at hv
        rw [hpp] at hv
        simp only [hb] at hv
        have hnone : bucketFind [p] j = none := by
          unfold bucketFind
          rw [List.find?_cons_of_neg _ (by simp [hpk, Ne.symm hjk])]
          rfl
        rw [hnone] at hv
        simp at hv
      · unfold FileCache.read at hv ⊢
        rw [cacheReadFile_deleteFile_other _ _ _ hpp]
        exact hv

/-- Witness for the amended delete claim at a concrete colliding bucket:
after deleting the present key `"k"`, the sibling `"j"` still reads. -/
theorem cache_delete_preserves_siblings_witness :
    FileCache.read deleteWitnessCache
      (FileCache.delete deleteWitnessCache deleteWitnessFs "k") "j"
      = some 7 := by
  apply cache_delete_preserves_siblings_of_present_key
      deleteWitnessCache deleteWitnessFs "k" "j" 7 (by decide)
  · intro b hb
    have h0 : cacheReadFile deleteWitnessFs
        (deleteWitnessCache.filePath "k") = some [("k", 5), ("j", 7)] := rfl
    rw [h0] at hb
    injection hb with h
    rw [← h]
    decide
  · decide

/- ### unique symbol collection lemmas -/

theorem pushMany_symbols (l : List PhpSymbol) (c : UniqueSymbolCollection) :
    (UniqueSymbolCollection.pushMany c l).symbols
      = c.symbols ++ addedSyms c.varMap l := by
  induction l generalizing c with
  | nil => simp [UniqueSymbolCollection.pushMany, addedSyms]
  | cons s rest ih =>
    show (UniqueSymbolCollection.pushMany (c.push s) rest).symbols = _
    rw [ih]
    cases h1 : isVarOrParam s with
    | true =>
      by_cases h2 : s.name ∈ c.varMap
      · simp [UniqueSymbolCollection.push, addedSyms, h1, h2]
      · simp [UniqueSymbolCollection.push, addedSyms, h1, h2]
    | false =>
      simp [UniqueSymbolCollection.push, addedSyms, h1]

theorem addedSyms_var_not_mem (l : List PhpSymbol) :
    ∀ (m : List String) (s : PhpSymbol), s ∈ addedSyms m l →
      isVarOrParam s = true → s.name ∉ m := by
  induction l with
  | nil =>
    intro m s hs
    simp [addedSyms] at hs
  | cons t rest ih =>
    intro m s hs hvp
    cases h1 : isVarOrParam t with
    | true =>
      by_cases h2 : t.name ∈ m
      · rw [addedSyms, if_pos h1, if_pos h2] at hs
        exact ih m s hs hvp
      · rw [addedSyms, if_pos h1, if_neg h2] at hs
        cases hs with
        | head => exact h2
        | tail _ hmem =>
          have := ih (t.name :: m) s hmem hvp
          intro hm
          exact this (List.mem_cons_of_mem _ hm)
    | false =>
      rw [addedSyms, if_neg (by simp [h1])] at hs
      cases hs with
      | head => rw [hvp] at h1; cases h1
      | tail _ hmem => exact ih m s hmem hvp

theorem addedSyms_pairwise (l : List PhpSymbol) :
    ∀ (m : List String),
      List.Pairwise
        (fun a b => isVarOrParam a = true → isVarOrParam b = true →
          a.name ≠ b.name)
        (addedSyms m l) := by
  induction l with
  | nil =>
    intro m
    simp [addedSyms]
  | cons t rest ih =>
    intro m
    cases h1 : isVarOrParam t with
    | true =>
      by_cases h2 : t.name ∈ m
      · rw [addedSyms, if_pos h1, if_pos h2]
        exact ih m
      · rw [addedSyms, if_pos h1, if_neg h2]
        refine List.Pairwise.cons ?_ (ih (t.name :: m))
        intro b hb _ hvb
        have := addedSyms_var_not_mem rest (t.name :: m) b hb hvb
        intro hEq
        exact this (hEq ▸ List.mem_cons_self _ _)
    | false =>
      rw [addedSyms, if_neg (by simp [h1])]
      refine List.Pairwise.cons ?_ (ih m)
      intro b _ hvt _
      rw [hvt] at h1
      cases h1

theorem addedSyms_filter_nonvar (l : List PhpSymbol) :
    ∀ (m : List String),
      (addedSyms m l).filter (fun s => !(isVarOrParam s))
        = l.filter (fun s => !(isVarOrParam s)) := by
  induction l with
  | nil =>
    intro m
    simp [addedSyms]
  | cons t rest ih =>
    intro m
    cases h1 : isVarOrParam t with
    | true =>
      by_cases h2 : t.name ∈ m
      · rw [addedSyms, if_pos h1, if_pos h2, ih,
          List.filter_cons_of_neg (by simp [h1])]
      · rw [addedSyms, if_pos h1, if_neg h2,
          List.filter_cons_of_neg (by simp [h1]),
          List.filter_cons_of_neg (by simp [h1]), ih]
    | false =>
      rw [addedSyms, if_neg (by simp [h1]),
        List.filter_cons_of_pos (by simp [h1]),
        List.filter_cons_of_pos (by simp [h1]), ih]

theorem addedSyms_find_first (l : List PhpSymbol) :
    ∀ (m : List String) (s : PhpSymbol), s ∈ addedSyms m l →
      isVarOrParam s = true →
      l.find? (fun t => isVarOrParam t && (t.name == s.name)) = some s := by
  induction l with
  | nil =>
    intro m s hs
    simp [addedSyms] at hs
  | cons t rest ih =>
    intro m s hs hvp
    cases h1 : isVarOrParam t with
    | true =>
      by_cases h2 : t.name ∈ m
      · rw [addedSyms, if_pos h1, if_pos h2] at hs
        have hnm := addedSyms_var_not_mem rest m s hs hvp
        have hne : (t.name == s.name) = false := by
          rw [beq_eq_false_iff_ne]
          intro hEq
          exact hnm (hEq ▸ h2)
        rw [List.find?_cons_of_neg _ (by simp [hne]), ih m s hs hvp]
      · rw [addedSyms, if_pos h1, if_neg h2] at hs
        cases hs with
        | head =>
          rw [List.find?_cons_of_pos _ (by simp [h1])]
        | tail _ hmem =>
          have hnm := addedSyms_var_not_mem rest (t.name :: m) s hmem hvp
          have hne : (t.name == s.name) = false := by
            rw [beq_eq_false_iff_ne]
            intro hEq
            exact hnm (hEq ▸ List.mem_cons_self _ _)
          rw [List.find?_cons_of_neg _ (by simp [hne]),
            ih (t.name :: m) s hmem hvp]
    | false =>
      rw [addedSyms, if_neg (by simp [h1])] at hs
      cases hs with
      | head => rw [hvp] at h1; cases h1
      | tail _ hmem =>
        rw [List.find?_cons_of_neg _ (by simp [h1]), ih m s hmem hvp]

theorem addedSyms_first_mem (l : List PhpSymbol) :
    ∀ (m : List String) (n : String) (s : PhpSymbol),
      l.find? (fun t => isVarOrParam t && (t.name == n)) = some s →
      n ∉ m → s ∈ addedSyms m l := by
  induction l with
  | nil =>
    intro m n s hf
    simp [List.find?] at hf
  | cons t rest ih =>
    intro m n s hf hm
    cases hp : (isVarOrParam t && (t.name == n)) with
    | true =>
      rw [@List.find?_cons_of_pos _
        (fun u => isVarOrParam u && (u.name == n)) t rest hp] at hf
      injection hf with hts
      subst hts
      have h1 : isVarOrParam t = true := (Bool.and_eq_true_iff.mp hp).1
      have hEq : t.name = n := by
        have := (Bool.and_eq_true_iff.mp hp).2
        exact eq_of_beq this
      rw [addedSyms, if_pos h1, if_neg (by rw [hEq]; exact hm)]
      exact List.mem_cons_self _ _
    | false =>
      rw [@List.find?_cons_of_neg _
        (fun u => isVarOrParam u && (u.name == n)) t rest (by simp [hp])] at hf
      cases h1 : isVarOrParam t with
      | true =>
        by_cases h2 : t.name ∈ m
        · rw [addedSyms, if_pos h1, if_pos h2]
          exact ih m n s hf hm
        · rw [addedSyms, if_pos h1, if_neg h2]
          have hne : t.name ≠ n := by
            intro hEq
            rw [hEq] at hp
            simp [h1] at hp
          refine List.mem_cons_of_mem _ (ih (t.name :: m) n s hf ?_)
          intro hmem
          rcases List.mem_cons.mp hmem with hEq | hmm
          · exact hne hEq.symm
          · exact hm hmm
      | false =>
        rw [addedSyms, if_neg (by simp [h1])]
        exact List.mem_cons_of_mem _ (ih m n s hf hm)

/-- Claim C5 (counterexample): the collection suppresses superglobal
names only for Variable/Parameter kinds; a Constant symbol named `$this`
(as produced by `define('$this', 1)`) is kept, so the array does contain
a symbol named as a listed superglobal. -/
theorem unique_collection_keeps_superglobal_constant :
    constThisSymbol
        ∈ (UniqueSymbolCollection.init.pushMany [constThisSymbol]).toArray
    ∧ constThisSymbol.name ∈ inbuiltVarNames
    ∧ isVarOrParam constThisSymbol = false := by
  refine ⟨?_, ?_, rfl⟩
  · show constThisSymbol ∈ [constThisSymbol]
    exact List.mem_cons_self _ _
  · show "$this" ∈ inbuiltVarNames
    decide

/-- Claim C5 (amended): for every pushed sequence, the resulting array
has at most one Variable/Parameter symbol per name and the kept one is
the first pushed occurrence (which is present whenever its name is not a
listed superglobal); no Variable/Parameter symbol carries a superglobal
name; and every non-Variable, non-Parameter symbol is kept
unconditionally in insertion order. -/
theorem unique_collection_laws (l : List PhpSymbol) :
    List.Pairwise
      (fun a b => isVarOrParam a = true → isVarOrParam b = true →
        a.name ≠ b.name)
      (UniqueSymbolCollection.init.pushMany l).toArray
    ∧ (∀ s, s ∈ (UniqueSymbolCollection.init.pushMany l).toArray →
        isVarOrParam s = true → s.name ∉ inbuiltVarNames)
    ∧ (∀ s, s ∈ (UniqueSymbolCollection.init.pushMany l).toArray →
        isVarOrParam s = true →
        l.find? (fun t => isVarOrParam t && (t.name == s.name)) = some s)
    ∧ (∀ n s, l.find? (fun t => isVarOrParam t && (t.name == n)) = some s →
        n ∉ inbuiltVarNames →
        s ∈ (UniqueSymbolCollection.init.pushMany l).toArray)
    ∧ (UniqueSymbolCollection.init.pushMany l).toArray.filter
        (fun s => !(isVarOrParam s))
      = l.filter (fun s => !(isVarOrParam s)) := by
  have harr : (UniqueSymbolCollection.init.pushMany l).toArray
      = addedSyms inbuiltVarNames l := by
    show (UniqueSymbolCollection.init.pushMany l).symbols = _
    rw [pushMany_symbols]
    rfl
  rw [harr]
  refine ⟨addedSyms_pairwise l inbuiltVarNames, ?_, ?_, ?_,
    addedSyms_filter_nonvar l inbuiltVarNames⟩
  · intro s hs hvp
    exact addedSyms_var_not_mem l inbuiltVarNames s hs hvp
  · intro s hs hvp
    exact addedSyms_find_first l inbuiltVarNames s hs hvp
  · intro n s hf hn
    exact addedSyms_first_mem l inbuiltVarNames n s hf hn

/-- Witness for the amended collection claim at a concrete sequence:
of two Variable symbols named `$a`, the first pushed one is the one the
first-occurrence law returns. -/
theorem unique_collection_laws_witness :
    List.find? (fun t => isVarOrParam t && (t.name == varA1.name))
      [varA1, varA2, classC] = some varA1 := by
  apply (unique_collection_laws [varA1, varA2, classC]).2.2.1
  · show varA1 ∈ [varA1, classC]
    exact List.mem_cons_self _ _
  · rfl

/-- Claim C1: the malformed-define contract fails in the code. With a
non-string first argument the transform creates no symbol and no
reference (second conjunct), but as soon as the second argument is a
scalar literal the push dereferences the missing symbol and throws a
TypeError (first conjunct) — the pass aborts instead of losing only the
constant. A well-formed call still succeeds (third conjunct). -/
theorem define_push_crashes_on_scalar_second_arg :
    definePush defineLoc PhraseType.ArgumentExpressionList
        [defineArgBad, defineArgInt]
      = Except.error "TypeError: Cannot set property value of undefined"
    ∧ (∃ st, definePush defineLoc PhraseType.ArgumentExpressionList
          [defineArgBad] = Except.ok st
        ∧ st.symbol = none ∧ st.reference = none)
    ∧ (definePush defineLoc PhraseType.ArgumentExpressionList
        [defineArgStr, defineArgInt]).isOk = true := by
  refine ⟨rfl, ⟨⟨none, none⟩, rfl, rfl, rfl⟩, rfl⟩

/-- Claim C2: references are not collected into the pass's `references`
array. The constructor leaves `referenceNameSet` undefined, so the first
`addRefName` on a named reference throws a TypeError (first conjunct)
while `references` stays empty (second conjunct); and even with the name
set present, `addRefName` only records names in the set — the
`references` array is untouched (third conjunct). -/
theorem symbols_pass_drops_references :
    addRefName symbolsPassInit (some refDollarX)
      = Except.error "TypeError: Cannot read property add of undefined"
    ∧ symbolsPassInit.references = []
    ∧ addRefName ⟨[], some []⟩ (some refDollarX)
      = Except.ok ⟨[], some ["$x"]⟩ := by
  refine ⟨rfl, rfl, rfl⟩

/-- Claim C6: for a QualifiedName reference, `unresolvedName` is set iff
resolution rewrote the name and the contextual kind is Function or
Constant; when set it equals the originally written form; otherwise it
stays unset. Holds for every resolver function. -/
theorem qualified_name_unresolved_iff_rewritten
    (resolve : String → Nat → String) (kind : Nat) (nn : NamespaceNameState)
    (r : Reference)
    (hinit : nn.ref.unresolvedName = none)
    (hr : qualifiedNamePush resolve kind PhraseType.NamespaceName nn
      = some r) :
    (r.unresolvedName = some nn.ref.name ↔
      (r.name ≠ nn.ref.name
        ∧ (kind = SymbolKind.Function ∨ kind = SymbolKind.Constant)))
    ∧ (∀ u, r.unresolvedName = some u → u = nn.ref.name) := by
  unfold qualifiedNamePush at hr
  rw [if_pos rfl] at hr
  by_cases hres : jsToLowerCase nn.ref.name ∈ RESERVED_WORDS
  · rw [if_pos hres] at hr
    injection hr with hr
    subst hr
    refine ⟨?_, ?_⟩
    · simp only [hinit]
      constructor
      · intro hfalse
        cases hfalse
      · intro ⟨hne, _⟩
        exact absurd rfl hne
    · intro u hu
      rw [hinit] at hu
      cases hu
  · rw [if_neg hres] at hr
    by_cases hcond : (kind = SymbolKind.Function ∨ kind = SymbolKind.Constant)
        ∧ resolve nn.ref.name kind ≠ nn.ref.name
    · rw [if_pos hcond] at hr
      injection hr with hr
      subst hr
      refine ⟨?_, ?_⟩
      · constructor
        · intro _
          exact ⟨hcond.2, hcond.1⟩
        · intro _
          rfl
      · intro u hu
        injection hu with hu
        exact hu.symm
    · rw [if_neg hcond] at hr
      injection hr with hr
      subst hr
      refine ⟨?_, ?_⟩
      · simp only [hinit]
        constructor
        · intro hfalse
          cases hfalse
        · intro ⟨hne, hk⟩
          exact absurd ⟨hk, hne⟩ hcond
      · intro u hu
        rw [hinit] at hu
        cases hu

/-- Witness for claim C6 at a concrete input: resolving `foo` as a
Function through a resolver that prefixes the namespace `A` stores the
written form in `unresolvedName`. -/
theorem qualified_name_unresolved_witness :
    (Reference.mk SymbolKind.Function "A\\foo" (0, 3) (some "foo")
        none).unresolvedName
      = some qnFooNN.ref.name := by
  have h := qualified_name_unresolved_iff_rewritten
    (fun n _ => "A\\" ++ n) SymbolKind.Function qnFooNN
    (Reference.mk SymbolKind.Function "A\\foo" (0, 3) (some "foo") none)
    rfl rfl
  exact h.1.mpr ⟨by decide, Or.inl rfl⟩

/-- Claim C7: when the written text is (case-insensitively) a reserved
word, the emitted reference keeps the written text unchanged and no
resolution is applied — for every resolver function, so neither a
namespace prefix nor a use-alias substitution can occur. -/
theorem reserved_word_reference_unchanged
    (resolve : String → Nat → String) (kind : Nat) (nn : NamespaceNameState)
    (r : Reference)
    (hres : jsToLowerCase nn.ref.name ∈ RESERVED_WORDS)
    (hr : qualifiedNamePush resolve kind PhraseType.NamespaceName nn
      = some r) :
    r.name = nn.ref.name ∧ r.unresolvedName = nn.ref.unresolvedName := by
  unfold qualifiedNamePush at hr
  rw [if_pos rfl, if_pos hres] at hr
  injection hr with hr
  subst hr
  exact ⟨rfl, rfl⟩

/-- Witness for claim C7 at the written text `Int` and a resolver that
would prefix `NS\`: the reference name stays `Int`. -/
theorem reserved_word_reference_witness :
    (Reference.mk SymbolKind.Class "Int" (3, 6) none none).name
        = reservedNN.ref.name
    ∧ (Reference.mk SymbolKind.Class "Int" (3, 6) none none).unresolvedName
        = reservedNN.ref.unresolvedName :=
  reserved_word_reference_unchanged (fun n _ => "NS\\" ++ n)
    SymbolKind.Class reservedNN
    (Reference.mk SymbolKind.Class "Int" (3, 6) none none) (by decide) rfl

/-- Claim C9: when the parent member-access transform with Property kind
absorbs a member-name reference with a non-empty name, the resulting
reference has kind Property and a name starting with `$`: the `$` is
prepended exactly when the name did not already start with it. -/
theorem property_member_name_gets_dollar (childPhrase : PhraseType)
    (r : Reference)
    (hc : childPhrase = PhraseType.ScopedMemberName
      ∨ childPhrase = PhraseType.MemberName)
    (hname : r.name ≠ "") :
    (memberAccessPush SymbolKind.Property childPhrase r).kind
        = SymbolKind.Property
    ∧ (memberAccessPush SymbolKind.Property childPhrase r).name.data.head?
        = some '$'
    ∧ (r.name.data.head? ≠ some '$' →
        (memberAccessPush SymbolKind.Property childPhrase r).name
          = "$" ++ r.name)
    ∧ (r.name.data.head? = some '$' →
        (memberAccessPush SymbolKind.Property childPhrase r).name
          = r.name) := by
  unfold memberAccessPush
  rw [if_pos hc]
  by_cases hd : r.name.data.head? = some '$'
  · rw [if_neg (by intro hcontra; exact hcontra.2.2 hd)]
    refine ⟨rfl, hd, ?_, fun _ => rfl⟩
    intro hcontra
    exact absurd hd hcontra
  · rw [if_pos ⟨rfl, hname, hd⟩]
    refine ⟨rfl, ?_, fun _ => rfl, ?_⟩
    · show ("$" ++ r.name).data.head? = some '$'
      rw [String.data_append]
      rfl
    · intro hcontra
      exact absurd hcontra hd

/-- Witness for claim C9 at the concrete member name `prop`: the emitted
property reference is named `$prop`. -/
theorem property_member_name_witness :
    (memberAccessPush SymbolKind.Property PhraseType.MemberName
        propMemberRef).name.data.head? = some '$' :=
  (property_member_name_gets_dollar PhraseType.MemberName propMemberRef
    (Or.inr rfl) (by decide)).2.1

/-- Claim C8: every symbol synthesised from a `@property`,
`@property-read`, `@property-write` or `@method` tag carries Magic and
Public; `@property-read` adds ReadOnly, `@property-write` adds WriteOnly,
and a static `@method` adds Static; hence every member that
`phpDocMembers` contributes carries Magic and Public. -/
theorem magic_member_modifier_laws (tsResolve : String → String)
    (loc : PackedLocation) (t : Tag) (d : PhpDoc) :
    ((SymbolReader.propertyTagToSymbol tsResolve t loc).modifiers
        &&& (SymbolModifier.Magic ||| SymbolModifier.Public))
      = (SymbolModifier.Magic ||| SymbolModifier.Public)
    ∧ ((SymbolReader.methodTagToSymbol tsResolve t loc).modifiers
        &&& (SymbolModifier.Magic ||| SymbolModifier.Public))
      = (SymbolModifier.Magic ||| SymbolModifier.Public)
    ∧ (t.tagName = "@property-read" →
        (SymbolReader.propertyTagToSymbol tsResolve t loc).modifiers
          &&& SymbolModifier.ReadOnly = SymbolModifier.ReadOnly)
    ∧ (t.tagName = "@property-write" →
        (SymbolReader.propertyTagToSymbol tsResolve t loc).modifiers
          &&& SymbolModifier.WriteOnly = SymbolModifier.WriteOnly)
    ∧ (t.isStatic = true →
        (SymbolReader.methodTagToSymbol tsResolve t loc).modifiers
          &&& SymbolModifier.Static = SymbolModifier.Static)
    ∧ (∀ s, s ∈ SymbolReader.phpDocMembers tsResolve d loc →
        (s.modifiers &&& (SymbolModifier.Magic ||| SymbolModifier.Public))
          = (SymbolModifier.Magic ||| SymbolModifier.Public)) := by
  have hprop : ∀ t' : Tag,
      ((SymbolReader.propertyTagToSymbol tsResolve t' loc).modifiers
        &&& (SymbolModifier.Magic ||| SymbolModifier.Public))
      = (SymbolModifier.Magic ||| SymbolModifier.Public) := by
    intro t'
    show (SymbolReader.magicPropertyModifier t'
        ||| SymbolModifier.Magic ||| SymbolModifier.Public) &&& _ = _
    unfold SymbolReader.magicPropertyModifier
    split_ifs <;> decide
  have hmeth : ∀ t' : Tag,
      ((SymbolReader.methodTagToSymbol tsResolve t' loc).modifiers
        &&& (SymbolModifier.Magic ||| SymbolModifier.Public))
      = (SymbolModifier.Magic ||| SymbolModifier.Public) := by
    intro t'
    show (if t'.isStatic then _ else _) &&& _ = _
    split_ifs <;> decide
  refine ⟨hprop t, hmeth t, ?_, ?_, ?_, ?_⟩
  · intro hread
    show (SymbolReader.magicPropertyModifier t
        ||| SymbolModifier.Magic ||| SymbolModifier.Public) &&& _ = _
    unfold SymbolReader.magicPropertyModifier
    rw [if_pos hread]
    decide
  · intro hwrite
    show (SymbolReader.magicPropertyModifier t
        ||| SymbolModifier.Magic ||| SymbolModifier.Public) &&& _ = _
    unfold SymbolReader.magicPropertyModifier
    have hne : t.tagName ≠ "@property-read" := by
      rw [hwrite]
      decide
    rw [if_neg hne, if_pos hwrite]
    decide
  · intro hstatic
    show (if t.isStatic then _ else _) &&& _ = _
    rw [if_pos hstatic]
    decide
  · intro s hs
    unfold SymbolReader.phpDocMembers at hs
    rcases List.mem_append.mp hs with hmem | hmem
    · obtain ⟨t', _, ht'⟩ := List.mem_map.mp hmem
      rw [← ht']
      exact hprop t'
    · obtain ⟨t', _, ht'⟩ := List.mem_map.mp hmem
      rw [← ht']
      exact hmeth t'

/-- Witness for claim C8 at concrete tags: a `@property-read` tag gets
ReadOnly and a static `@method` tag gets Static. -/
theorem magic_member_modifier_witness :
    (SymbolReader.propertyTagToSymbol id propertyReadTag loc0).modifiers
        &&& SymbolModifier.ReadOnly = SymbolModifier.ReadOnly
    ∧ (SymbolReader.methodTagToSymbol id staticMethodTag loc0).modifiers
        &&& SymbolModifier.Static = SymbolModifier.Static := by
  constructor
  · exact (magic_member_modifier_laws id loc0 propertyReadTag
      ⟨"", [], []⟩).2.2.1 rfl
  · exact (magic_member_modifier_laws id loc0 staticMethodTag
      ⟨"", [], []⟩).2.2.2.2.1 rfl

/- ### suffix-key lemmas -/

theorem string_ne_empty_data {s : String} (h : s ≠ "") : s.data ≠ [] := by
  intro hd
  apply h
  cases s with
  | mk l =>
    cases hd
    rfl

theorem suffixesFrom_eq_nil (l : List Char) :
    ∀ prev, suffixesFrom prev l = [] → firstBoundarySuffix prev l = none := by
  induction l with
  | nil =>
    intro prev _
    rfl
  | cons c rest ih =>
    intro prev hnil
    cases hb : keyBoundary prev c with
    | true =>
      simp only [suffixesFrom, hb, if_true] at hnil
      exact (List.cons_ne_nil _ _ hnil).elim
    | false =>
      simp only [suffixesFrom, hb, Bool.false_eq_true, if_false] at hnil
      simp only [firstBoundarySuffix, hb, Bool.false_eq_true, if_false]
      exact ih c hnil

theorem chainB_congr_head (t : List (List Char)) (a b : List Char)
    (h : ∀ x, nextKeyB a x = nextKeyB b x) :
    chainB nextKeyB (a :: t) = chainB nextKeyB (b :: t) := by
  cases t with
  | nil => rfl
  | cons x t' =>
    show (nextKeyB a x && chainB nextKeyB (x :: t'))
      = (nextKeyB b x && chainB nextKeyB (x :: t'))
    rw [h x]

theorem chainB_suffixesFrom (l : List Char) :
    ∀ prev, chainB nextKeyB ((prev :: l) :: suffixesFrom prev l) = true := by
  induction l with
  | nil =>
    intro prev
    rfl
  | cons c rest ih =>
    intro prev
    cases hb : keyBoundary prev c with
    | true =>
      have h1 : suffixesFrom prev (c :: rest)
          = (c :: rest) :: suffixesFrom c rest := by
        simp only [suffixesFrom, hb, if_true]
      rw [h1]
      show (nextKeyB (prev :: c :: rest) (c :: rest)
        && chainB nextKeyB ((c :: rest) :: suffixesFrom c rest)) = true
      rw [Bool.and_eq_true]
      refine ⟨?_, ih c⟩
      show decide (firstBoundarySuffix prev (c :: rest) = some (c :: rest))
        = true
      rw [decide_eq_true_eq]
      simp only [firstBoundarySuffix, hb, if_true]
    | false =>
      have h1 : suffixesFrom prev (c :: rest) = suffixesFrom c rest := by
        simp only [suffixesFrom, hb, Bool.false_eq_true, if_false]
      rw [h1]
      rw [chainB_congr_head (suffixesFrom c rest) (prev :: c :: rest)
        (c :: rest) ?_]
      · exact ih c
      · intro x
        show decide (firstBoundarySuffix prev (c :: rest) = some x)
          = decide (firstBoundarySuffix c rest = some x)
        have h2 : firstBoundarySuffix prev (c :: rest)
            = firstBoundarySuffix c rest := by
          simp only [firstBoundarySuffix, hb, Bool.false_eq_true, if_false]
        rw [h2]

theorem getLast_noMoreBoundary (l : List Char) :
    ∀ prev q, ((prev :: l) :: suffixesFrom prev l).getLast? = some q →
      noMoreBoundary q = true := by
  induction l with
  | nil =>
    intro prev q hlast
    have hq : q = [prev] := by
      simp only [suffixesFrom, List.getLast?_singleton] at hlast
      injection hlast with hlast
      exact hlast.symm
    subst hq
    rfl
  | cons c rest ih =>
    intro prev q hlast
    cases hb : keyBoundary prev c with
    | true =>
      have h1 : suffixesFrom prev (c :: rest)
          = (c :: rest) :: suffixesFrom c rest := by
        simp only [suffixesFrom, hb, if_true]
      rw [h1, List.getLast?_cons_cons] at hlast
      exact ih c q hlast
    | false =>
      have h1 : suffixesFrom prev (c :: rest) = suffixesFrom c rest := by
        simp only [suffixesFrom, hb, Bool.false_eq_true, if_false]
      rw [h1] at hlast
      cases hs : suffixesFrom c rest with
      | nil =>
        rw [hs, List.getLast?_singleton] at hlast
        injection hlast with hlast
        subst hlast
        show (firstBoundarySuffix prev (c :: rest)).isNone = true
        simp only [firstBoundarySuffix, hb, Bool.false_eq_true, if_false]
        rw [suffixesFrom_eq_nil rest c hs]
        rfl
      | cons x t =>
        rw [hs, List.getLast?_cons_cons] at hlast
        apply ih c q
        rw [hs, List.getLast?_cons_cons]
        exact hlast

/-- Claim C10 (counterexample): the key lists match the repository's own
test vectors, yet `"fooclass"` does not arise from `"myfooclass"` at a
namespace-separator or underscore boundary (there is none left), so the
claimed boundary rule fails on the claim's own example. -/
theorem keys_sep_rule_counterexample :
    PhpSymbol.keys testMfcSymbol
        = ["foo\\myfooclass", "myfooclass", "fooclass", "class"]
    ∧ PhpSymbol.keys testFnSymbol
        = ["_my_function", "my_function", "function"]
    ∧ PhpSymbol.keys testVarSymbol
        = ["$myproperty", "myproperty", "property"]
    ∧ PhpSymbol.keys testConstSymbol
        = ["this_is_a_constant", "is_a_constant", "a_constant", "constant"]
    ∧ chainB sepNextKeyB ((PhpSymbol.keys testMfcSymbol).map String.data)
        = false := by
  refine ⟨?_, ?_, ?_, ?_, ?_⟩ <;> decide

/-- Claim C10 (amended): `keys(s)[0]` is the lowercase of `s.name`; each
subsequent key is the lowercase of the strict right-suffix of the
previous (pre-lowercase) run starting at its next boundary, where a
boundary is a namespace separator, an underscore, a `$` sigil, or a
lower-to-upper camelCase transition; and the sequence ends with the
final word (no boundary remains in the last run). -/
theorem keys_boundary_chain (s : PhpSymbol) (h : s.name ≠ "") :
    (PhpSymbol.keys s).head? = some (lowerKey s.name.data)
    ∧ PhpSymbol.keys s = (keyList s.name.data).map lowerKey
    ∧ chainB nextKeyB (keyList s.name.data) = true
    ∧ (∀ q, (keyList s.name.data).getLast? = some q →
        noMoreBoundary q = true) := by
  obtain ⟨c, cs, hdata⟩ : ∃ c cs, s.name.data = c :: cs := by
    cases hd : s.name.data with
    | nil => exact absurd hd (string_ne_empty_data h)
    | cons c cs => exact ⟨c, cs, rfl⟩
  refine ⟨?_, rfl, ?_, ?_⟩
  · show ((keyList s.name.data).map lowerKey).head? = some (lowerKey s.name.data)
    rw [hdata]
    rfl
  · rw [hdata]
    exact chainB_suffixesFrom cs c
  · rw [hdata]
    intro q hq
    exact getLast_noMoreBoundary cs c q hq

/-- Witness for the amended suffix-key claim: the last pre-lowercase run
of `Foo\MyFooClass` is `Class`, which holds no further boundary. -/
theorem keys_boundary_chain_witness :
    noMoreBoundary (String.data "Class") = true :=
  (keys_boundary_chain testMfcSymbol (by decide)).2.2.2
    (String.data "Class") (by decide)
